import Mathlib

/-
Verification of the Canvas core: the context tree (`Tree` / `TreeNode`), the
compressed set store (`BitmapManager`), and the document index (`IndexD`).
Each JavaScript source function is shallowly embedded as an executable Lean
definition; JavaScript in-place mutation is modelled by explicit state
passing, `throw` by an error constructor or `Except`, and dynamically typed
arguments by a small sum type of the value shapes that actually occur.
-/

deriving instance DecidableEq for Except

namespace Canvas

/-- Dynamically typed JavaScript values that occur as Map keys and as the
id-or-array arguments of the bitmap operations: bitmap keys are strings,
document ids are numbers, and id lists are arrays of numbers. -/
inductive JsVal where
  | str (s : String)
  | num (n : Nat)
  | arr (ns : List Nat)
deriving DecidableEq

/-- Map.prototype.get on an association list (first entry with the key). -/
def lookupKV {α β : Type} [DecidableEq α] (l : List (α × β)) (k : α) : Option β :=
  (l.find? (fun p => p.1 = k)).map (fun p => p.2)

/-- Map.prototype.set: replaces the value of an existing key in place,
otherwise appends (JavaScript Maps preserve insertion order). -/
def setKV {α β : Type} [DecidableEq α] (l : List (α × β)) (k : α) (v : β) : List (α × β) :=
  if (l.find? (fun p => p.1 = k)).isSome then
    l.map (fun p => if p.1 = k then (k, v) else p)
  else l ++ [(k, v)]

/-!
### Compressed set store: `BitmapManager`
(src/app/services/canvasdb/index/lib/BitmapManager.js)

A `RoaringBitmap32` object is modelled as a `Finset ℕ` stored on an explicit
heap, identified by its address (its index in `heap`), so that in-place
mutation (`add`, `addMany`, `andInPlace`) is observable through every alias
of the object. Serialization is modelled abstractly: the persisted byte blob
of a bitmap is the set itself, so `deserialize (serialize b) = b`.
-/

/-- The cache object handed to the BitmapManager constructor. The source
default is `new Map()`; `IndexD` instead passes the dataset *name* (a plain
string) as the second constructor argument, and every method call on it
(`has`, `get`, ...) throws a TypeError. -/
inductive JsCache where
  | map (entries : List (JsVal × Nat))
  | jsString (s : String)
deriving DecidableEq

/-- State of one BitmapManager: the backing store (`#db`), the cache object
(`#cache`, mapping keys to heap addresses of cached bitmap objects), and the
heap of allocated RoaringBitmap32 objects. -/
structure BM where
  db : List (JsVal × Finset ℕ)
  cache : JsCache
  heap : List (Finset ℕ)
deriving DecidableEq

/-- Allocation of a fresh RoaringBitmap32 object. -/
def BM.alloc (st : BM) (s : Finset ℕ) : Nat × BM :=
  (st.heap.length, { st with heap := st.heap ++ [s] })

/-- Read the bitmap object at a heap address. -/
def BM.deref (st : BM) (a : Nat) : Finset ℕ := st.heap.getD a ∅

/-- BitmapManager.getBitmap (lines 89-101): returns the cached object if the
key is cached; otherwise, if the key is absent from the backing store,
returns null; otherwise `#loadBitmapFromDb` (388-398) deserializes the blob
into a freshly allocated object. Neither path writes to the cache. When the
cache object is a string (as constructed by IndexD), `this.#cache.has(key)`
throws. -/
def BM.getBitmap (st : BM) (key : JsVal) : Except String (Option Nat × BM) :=
  match st.cache with
  | .jsString _ => .error "TypeError: this.cache.has is not a function"
  | .map m =>
    match lookupKV m key with
    | some a => .ok (some a, st)
    | none =>
      match lookupKV st.db key with
      | none => .ok (none, st)
      | some blob =>
        let (a, st1) := st.alloc blob
        .ok (some a, st1)

/-- BitmapManager.#saveBitmapToDb (374-386): serializes the bitmap object at
address `a` and writes the blob under `key`. -/
def BM.saveBitmapToDb (st : BM) (key : JsVal) (a : Nat) : BM :=
  { st with db := setKV st.db key (st.deref a) }

/-- Result of `tick`-like methods: the JavaScript value `false`, or the
mutated bitmap object. -/
inductive TickRes where
  | retFalse
  | bmp (a : Nat)
deriving DecidableEq

/-- RoaringBitmap32.prototype.add accepts a single unsigned integer; other
argument shapes throw (modelled library behaviour). -/
def rbAdd (s : Finset ℕ) (v : JsVal) : Except String (Finset ℕ) :=
  match v with
  | .num n => .ok (insert n s)
  | _ => .error "TypeError: add expects an unsigned 32-bit integer"

/-- RoaringBitmap32.prototype.addMany accepts an array of integers; a bare
number throws (modelled library behaviour; passing another bitmap object is
not needed by any verified claim). -/
def rbAddMany (s : Finset ℕ) (v : JsVal) : Except String (Finset ℕ) :=
  match v with
  | .arr ns => .ok (s ∪ ns.toFinset)
  | _ => .error "TypeError: addMany expects an array of unsigned 32-bit integers"

/-- BitmapManager.tick (lines 124-136). Note the parameter order of the
source: `tick(idOrArray, bitmapKey)` takes the ids first and the key second,
and has no auto-create parameter: a missing bitmap returns `false`. On
success the mutated bitmap is written through to the store and returned. -/
def BM.tick (st : BM) (idOrArray : JsVal) (bitmapKey : JsVal) : Except String (TickRes × BM) :=
  match BM.getBitmap st bitmapKey with
  | .error e => .error e
  | .ok (none, st1) => .ok (.retFalse, st1)
  | .ok (some a, st1) =>
    match rbAdd (st1.deref a) idOrArray with
    | .error e => .error e
    | .ok s2 =>
      let st2 : BM := { st1 with heap := st1.heap.set a s2 }
      .ok (.bmp a, BM.saveBitmapToDb st2 bitmapKey a)

/-- BitmapManager.tickSync (lines 286-303): `tickSync(key, oidArrayOrBitmap,
autoCreateBitmap, implicitSave)`. A missing bitmap returns `false` when
auto-create is disabled and is otherwise replaced by a fresh empty bitmap;
the ids are added with `addMany` and the result is persisted when
`implicitSave` is set. -/
def BM.tickSync (st : BM) (key : JsVal) (oidArrayOrBitmap : JsVal)
    (autoCreateBitmap : Bool) (implicitSave : Bool) : Except String (TickRes × BM) :=
  match BM.getBitmap st key with
  | .error e => .error e
  | .ok (found, st1) =>
    let located : Option (Nat × BM) :=
      match found with
      | some a => some (a, st1)
      | none => if autoCreateBitmap then some (st1.alloc ∅) else none
    match located with
    | none => .ok (.retFalse, st1)
    | some (a, st2) =>
      match rbAddMany (st2.deref a) oidArrayOrBitmap with
      | .error e => .error e
      | .ok s2 =>
        let st3 : BM := { st2 with heap := st2.heap.set a s2 }
        .ok (.bmp a, if implicitSave then BM.saveBitmapToDb st3 key a else st3)

/-- Per-key loop of tickMany: the source maps each key to
`this.tick(key, oidArrayOrBitmap, autoCreateBitmaps, implicitSave)`, but
`tick` declares only `(idOrArray, bitmapKey)`, so the key is bound to
`idOrArray`, the ids to `bitmapKey`, and both flags are silently discarded. -/
def BM.tickManyGo (st : BM) (oidArrayOrBitmap : JsVal) :
    List JsVal → Except String (List TickRes × BM)
  | [] => .ok ([], st)
  | key :: rest =>
    match BM.tick st key oidArrayOrBitmap with
    | .error e => .error e
    | .ok (r, st1) =>
      match BM.tickManyGo st1 oidArrayOrBitmap rest with
      | .error e => .error e
      | .ok (rs, st2) => .ok (r :: rs, st2)

/-- BitmapManager.tickMany (lines 314-324): rejects an empty key array with a
TypeError, otherwise maps `tick` over the keys (see `BM.tickManyGo` for the
argument mismatch). -/
def BM.tickMany (st : BM) (keyArray : List JsVal) (oidArrayOrBitmap : JsVal)
    (autoCreateBitmaps : Bool) (implicitSave : Bool) : Except String (List TickRes × BM) :=
  if keyArray.isEmpty then
    .error "TypeError: The first argument to tickMany must be a non-empty array of bitmap keys"
  else
    BM.tickManyGo st oidArrayOrBitmap keyArray

/-- Result of an AND query: the address of the returned bitmap object, the
resulting state, and a ghost trace of the keys that were resolved through
`getBitmap`, in call order (the call-count observation of the spec). -/
structure AndRes where
  res : Nat
  st : BM
  resolved : List JsVal
deriving DecidableEq

/-- Loop of BitmapManager.AND (lines 169-193). `acc` is the source variable
`partial`: it is initialized with the first resolved non-empty bitmap object
and then mutated in place by `partial.andInPlace(bitmap)`. Any key that is
missing or resolves to an empty bitmap returns a fresh empty bitmap at once,
leaving the remaining keys unresolved. -/
def BM.ANDgo (st : BM) (acc : Option Nat) (keys : List JsVal) (tr : List JsVal) :
    Except String AndRes :=
  match keys with
  | [] =>
    match acc with
    | some p => .ok ⟨p, st, tr⟩
    | none =>
      let (a, st1) := st.alloc ∅
      .ok ⟨a, st1, tr⟩
  | key :: rest =>
    match BM.getBitmap st key with
    | .error e => .error e
    | .ok (found, st1) =>
      let tr1 := tr ++ [key]
      match found with
      | none =>
        let (a, st2) := st1.alloc ∅
        .ok ⟨a, st2, tr1⟩
      | some a =>
        if st1.deref a = ∅ then
          let (a2, st2) := st1.alloc ∅
          .ok ⟨a2, st2, tr1⟩
        else
          match acc with
          | none => BM.ANDgo st1 (some a) rest tr1
          | some p =>
            BM.ANDgo { st1 with heap := st1.heap.set p (st1.deref p ∩ st1.deref a) }
              (some p) rest tr1

/-- BitmapManager.AND (lines 169-193): an empty key array yields a fresh
empty bitmap; otherwise the keys are folded by `BM.ANDgo`. -/
def BM.AND (st : BM) (keyArray : List JsVal) : Except String AndRes :=
  if keyArray.isEmpty then
    let (a, st1) := st.alloc ∅
    .ok ⟨a, st1, []⟩
  else BM.ANDgo st none keyArray []

/-- Result of the static AND: returned address and resulting state. -/
structure AndSRes where
  res : Nat
  st : BM
deriving DecidableEq

/-- Loop of the static BitmapManager.AND (lines 202-225), operating directly
on a supplied array of bitmap objects (possibly containing null entries). -/
def BM.ANDstaticGo (st : BM) (acc : Option Nat) : List (Option Nat) → AndSRes
  | [] =>
    match acc with
    | some p => ⟨p, st⟩
    | none =>
      let (a, st1) := st.alloc ∅
      ⟨a, st1⟩
  | b :: rest =>
    match b with
    | none =>
      let (a, st1) := st.alloc ∅
      ⟨a, st1⟩
    | some a =>
      if st.deref a = ∅ then
        let (a2, st1) := st.alloc ∅
        ⟨a2, st1⟩
      else
        match acc with
        | none => BM.ANDstaticGo st (some a) rest
        | some p =>
          BM.ANDstaticGo { st with heap := st.heap.set p (st.deref p ∩ st.deref a) }
            (some p) rest

/-- Static BitmapManager.AND (lines 202-225). -/
def BM.ANDstatic (st : BM) (roaringBitmapArray : List (Option Nat)) : AndSRes :=
  if roaringBitmapArray.isEmpty then
    let (a, st1) := st.alloc ∅
    ⟨a, st1⟩
  else BM.ANDstaticGo st none roaringBitmapArray

/-- Intersection of a non-empty list of sets, the first element being the
accumulator (matching the fold performed by AND); empty list gives ∅. -/
def inters : List (Finset ℕ) → Finset ℕ
  | [] => ∅
  | s :: rest => rest.foldl (fun x y => x ∩ y) s

/-!
### Context tree: `Tree` / `TreeNode` (src/unnamed/part_000)
-/

/-- Layer record. `Layer.js` is not under src/; only the two fields the tree
code reads (`id`, `name`) are modelled — the remaining descriptive fields
(label, description, color, type, contextBitmaps) influence no verified
operation. -/
structure Layer where
  id : String
  name : String
deriving DecidableEq

/-- The fixed root layer (part_000 lines 20-28): id "/", name "universe". -/
def rootLayer : Layer := ⟨"/", "universe"⟩

/-- Modelled from the spec: the Layer Registry collaborator (`LayerIndex` is
required by the tree but is not under src/). Per the spec it resolves a
human-readable name to a stable layer identifier and record, creating one on
demand, resolves an identifier back to its record, and owns identifier
allocation; fresh identifiers are modelled as decimal strings from a
counter. -/
structure LayerIndex where
  layers : List Layer
  nextId : Nat
deriving DecidableEq

/-- Modelled from the spec: getLayerByName of the Layer Registry contract. -/
def LayerIndex.getLayerByName (reg : LayerIndex) (name : String) : Option Layer :=
  reg.layers.find? (fun l => l.name = name)

/-- Modelled from the spec: getLayerByID of the Layer Registry contract. -/
def LayerIndex.getLayerByID (reg : LayerIndex) (id : String) : Option Layer :=
  reg.layers.find? (fun l => l.id = id)

/-- Modelled from the spec: createLayer of the Layer Registry contract;
allocates a fresh identifier and registers the record. -/
def LayerIndex.createLayer (reg : LayerIndex) (name : String) : Layer × LayerIndex :=
  let l : Layer := ⟨toString reg.nextId, name⟩
  (l, ⟨reg.layers ++ [l], reg.nextId + 1⟩)

/-- TreeNode (part_000 lines 35-70): wraps a layer, owns an ordered
id-keyed map of children (a JavaScript Map, modelled as an ordered list of
nodes keyed by their own `id`). The constructor validation (string id,
object payload) is enforced by the Lean types. -/
inductive TreeNode where
  | mk (id : String) (payload : Layer) (children : List TreeNode)

/-- Node identifier. -/
def TreeNode.id : TreeNode → String
  | .mk i _ _ => i

/-- Node payload (the wrapped layer record). -/
def TreeNode.payload : TreeNode → Layer
  | .mk _ p _ => p

/-- Node children in insertion order. -/
def TreeNode.children : TreeNode → List TreeNode
  | .mk _ _ cs => cs

/-- TreeNode.isLeaf: no children. -/
def TreeNode.isLeaf (n : TreeNode) : Bool := n.children.isEmpty

/-- TreeNode.hasChildren. -/
def TreeNode.hasChildren (n : TreeNode) : Bool := !n.isLeaf

/-- TreeNode.getChild: Map.get by child id. -/
def TreeNode.getChild (n : TreeNode) (id : String) : Option TreeNode :=
  n.children.find? (fun c => c.id = id)

/-- TreeNode.hasChild: Map.has by child id. -/
def TreeNode.hasChild (n : TreeNode) (id : String) : Bool :=
  (n.getChild id).isSome

/-- TreeNode.addChild (lines 58-66): inserts the child only when no child
with the same id exists (Map.set on a fresh key appends). -/
def TreeNode.addChild (n : TreeNode) (child : TreeNode) : TreeNode :=
  if n.hasChild child.id then n
  else .mk n.id n.payload (n.children ++ [child])

/-- TreeNode.removeChild: Map.delete by child id. -/
def TreeNode.removeChild (n : TreeNode) (id : String) : TreeNode :=
  .mk n.id n.payload (n.children.filter (fun c => !(c.id = id)))

/-- Replacing a child object in place (the effect of mutating a child that
was obtained by reference from the Map): the entry keeps its position;
a fresh id is appended, exactly as Map.set. -/
def TreeNode.setChild (n : TreeNode) (child : TreeNode) : TreeNode :=
  if n.hasChild child.id then
    .mk n.id n.payload (n.children.map (fun c => if c.id = child.id then child else c))
  else .mk n.id n.payload (n.children ++ [child])

/-- JavaScript String.prototype.split with separator "/" (splits on every
occurrence, keeping empty segments). -/
def jsSplitSlash (s : String) : List String :=
  (go s.data []).map List.asString
where
  go : List Char → List Char → List (List Char)
  | [], acc => [acc.reverse]
  | c :: cs, acc => if c = '/' then acc.reverse :: go cs [] else go cs (c :: acc)

/-- path.split('/').filter(Boolean): the non-empty segments of a path. -/
def pathSegments (path : String) : List String :=
  (jsSplitSlash path).filter (fun s => s ≠ "")

/-- pathFrom.split('/').slice(0, -1).join('/'): the parent path used by
`move` and `remove`. -/
def parentPathOf (path : String) : String :=
  String.intercalate "/" (jsSplitSlash path).dropLast

/-- The JavaScript return value of Tree.insert: `false` on a failure path,
`undefined` when the method falls through to `this.save()` — the source has
no `return true`; both values are falsy. -/
inductive JsRet where
  | retFalse
  | retUndef
deriving DecidableEq

/-- Truthiness of a Tree.insert result: both `false` and `undefined` are
falsy in JavaScript. -/
def JsRet.truthy : JsRet → Bool
  | .retFalse => false
  | .retUndef => false

/-- Tree state: the root node and the injected layer registry. The tree
index store written by `save()` is write-only for every verified operation
and is omitted; serialization itself is verified through
`buildJsonIndexTree` / `buildTreeFromJson`. -/
structure Tree where
  root : TreeNode
  layers : LayerIndex

/-- Segment loop of Tree.insert (lines 137-157): resolves or (when
`autoCreateLayers`) creates the layer of each segment, then descends into
the corresponding child node, creating it when absent. The in-place mutation
of `currentNode` is modelled by rebuilding the path through `setChild` as
the recursion returns; on failure the partially built path is kept, as in
the source. The payload of a fresh node is `getLayerByID(layer.id)`, which
always resolves to the layer just found or created; `getD layer` supplies
that same record instead of an unreachable error branch of the TreeNode
constructor. -/
def insertLoop (reg : LayerIndex) (cur : TreeNode) (autoCreateLayers : Bool) :
    List String → LayerIndex × TreeNode × Bool
  | [] => (reg, cur, true)
  | layerName :: rest =>
    let resolved : Option (Layer × LayerIndex) :=
      match reg.getLayerByName layerName with
      | some l => some (l, reg)
      | none =>
        if autoCreateLayers then some (reg.createLayer layerName) else none
    match resolved with
    | none => (reg, cur, false)
    | some (layer, reg1) =>
      let child : TreeNode :=
        match cur.getChild layer.id with
        | some c => c
        | none => .mk layer.id ((reg1.getLayerByID layer.id).getD layer) []
      let (reg2, child2, ok) := insertLoop reg1 child autoCreateLayers rest
      (reg2, cur.setChild child2, ok)

/-- Tree.insert (lines 126-171). Returns `false` when called with the bare
root path and no node, or when a segment layer is missing with auto-create
disabled; otherwise it falls through to `save()` and returns `undefined`.
The trailing node-handling block (lines 159-166) is a no-op: when a child
with the supplied node id already exists, `addChild` on it does nothing
(the id is present), and when it does not exist the supplied node is never
attached at all; it is therefore modelled as the identity. -/
def Tree.insert (t : Tree) (path : String) (node : Option TreeNode)
    (autoCreateLayers : Bool) : Tree × JsRet :=
  if path = "/" ∧ node.isNone then (t, .retFalse)
  else
    let (reg1, root1, ok) := insertLoop t.layers t.root autoCreateLayers (pathSegments path)
    if ok then (⟨root1, reg1⟩, .retUndef) else (⟨root1, reg1⟩, .retFalse)

/-- Segment loop of Tree.getNode (lines 324-343): read-only descent. -/
def getNodeLoop (reg : LayerIndex) (cur : TreeNode) : List String → Option TreeNode
  | [] => some cur
  | layerName :: rest =>
    match reg.getLayerByName layerName with
    | none => none
    | some layer =>
      match cur.getChild layer.id with
      | none => none
      | some child => getNodeLoop reg child rest

/-- Tree.getNode (lines 320-344): the root for "/" or an empty path,
otherwise a read-only traversal; any unknown layer or absent child yields
a falsy result. -/
def Tree.getNode (t : Tree) (path : String) : Option TreeNode :=
  if path = "/" ∨ path = "" then some t.root
  else getNodeLoop t.layers t.root (pathSegments path)

/-- In-place modification of the node at a path (the effect of calling a
mutating method on a node object obtained from `getNode`): rebuilds the
spine through `setChild`. Unresolvable paths leave the tree unchanged
(unreachable in the verified uses). -/
def modifyAtLoop (reg : LayerIndex) (cur : TreeNode) (f : TreeNode → TreeNode) :
    List String → TreeNode
  | [] => f cur
  | layerName :: rest =>
    match reg.getLayerByName layerName with
    | none => cur
    | some layer =>
      match cur.getChild layer.id with
      | none => cur
      | some child => cur.setChild (modifyAtLoop reg child f rest)

/-- In-place modification of the node at `path` of a tree. -/
def Tree.modifyAt (t : Tree) (path : String) (f : TreeNode → TreeNode) : Tree :=
  if path = "/" ∨ path = "" then ⟨f t.root, t.layers⟩
  else ⟨modifyAtLoop t.layers t.root f (pathSegments path), t.layers⟩

/-- Result of Tree.move: `false`, `undefined` (fall-through), or a thrown
TypeError. -/
inductive MoveRes where
  | retFalse
  | retUndef
  | throwTypeError
deriving DecidableEq

/-- Tree.move, non-recursive path (lines 173-210). After resolving the
source node and its parent it builds a fresh node around the source layer
and calls `insert(pathTo, targetNode)`. `insert` returns `undefined` on
success and `false` on failure — both falsy — so the `!this.insert(...)`
check always takes the failure branch and the method returns `false`
without detaching anything. The detach-and-promote code below the check is
unreachable; it is still modelled: were it reached, the promotion loop
`for (const [key, value] of node.children.values())` destructures TreeNode
objects, which are not iterable, and throws a TypeError whenever the source
node has children. -/
def Tree.move (t : Tree) (pathFrom pathTo : String) : Tree × MoveRes :=
  match t.getNode pathFrom with
  | none => (t, .retFalse)
  | some node =>
    match t.getNode (parentPathOf pathFrom) with
    | none => (t, .retFalse)
    | some _parentNode =>
      let layer := node.payload
      let targetNode : TreeNode := .mk layer.id layer []
      let (t1, r) := t.insert pathTo (some targetNode) true
      if r.truthy = false then (t1, .retFalse)
      else
        let t2 := t1.modifyAt (parentPathOf pathFrom) (fun p => p.removeChild node.id)
        if node.hasChildren then (t2, .throwTypeError)
        else (t2, .retUndef)

/-- Result of Tree.remove: `false`, `true`, or a thrown error (missing
parent, or the TypeError from the child-promotion loop). -/
inductive RemoveRes where
  | retFalse
  | retTrue
  | throwParentNotFound
  | throwTypeError
deriving DecidableEq

/-- Tree.remove (lines 249-274). Resolves the node (`false` when absent) and
its parent (throws when absent). In the non-recursive case with children the
promotion loop `for (const [key, value] of node.children.values())`
destructures TreeNode objects, which are not iterable: it throws a TypeError
on the first child, before the detach. Otherwise the node is detached from
its parent and `true` is returned. -/
def Tree.remove (t : Tree) (path : String) (recursive : Bool) : Tree × RemoveRes :=
  match t.getNode path with
  | none => (t, .retFalse)
  | some node =>
    match t.getNode (parentPathOf path) with
    | none => (t, .throwParentNotFound)
    | some _parentNode =>
      if recursive = false ∧ node.hasChildren then (t, .throwTypeError)
      else
        let t2 := t.modifyAt (parentPathOf path) (fun p => p.removeChild node.id)
        (t2, .retTrue)

/-!
### Tree serialization (part_000 lines 405-459)
-/

/-- A node of the persisted JSON shape. The compact form produced by
`#buildJsonIndexTree` carries only `id` and `children`; `#buildTreeFromJson`
additionally reads an optional `name` field, absent (`none`) in the compact
form. -/
inductive JNode where
  | mk (id : String) (name : Option String) (children : List JNode)

/-- Identifier of a JSON node. -/
def JNode.id : JNode → String
  | .mk i _ _ => i

mutual

/-- Tree.#buildJsonIndexTree (lines 443-459): the compact persisted form,
one `{id, children}` object per node; a leaf child is rendered directly as
`{id, children: []}` (which coincides with its recursive serialization). -/
def buildJsonIndexTree : TreeNode → JNode
  | .mk i _ cs => .mk i none (bjitChildren cs)

/-- Child list of `buildJsonIndexTree` (the `map` over `children.values()`;
the `instanceof TreeNode` filter is the identity here). -/
def bjitChildren : List TreeNode → List JNode
  | [] => []
  | c :: cs =>
    (if c.hasChildren then buildJsonIndexTree c else .mk c.id none []) :: bjitChildren cs

end

mutual

/-- Tree.#buildTreeFromJson, inner `buildTree` (lines 410-437): resolves the
node layer (the root layer for id "/" or name "/", otherwise by id through
the registry), throws when the layer is unknown and the node carries no name
or auto-create is disabled, creates a layer from the persisted name
otherwise, then rebuilds the children and attaches them with `addChild`.
The payload lookup `getLayerByID(layer.id)` always resolves to the layer
just obtained; `getD layer` supplies that same record instead of an
unreachable error branch of the TreeNode constructor. -/
def btfjNode (autoCreateLayers : Bool) (reg : LayerIndex) :
    JNode → Except String (TreeNode × LayerIndex)
  | .mk i nm cs =>
    let layerRes : Except String (Layer × LayerIndex) :=
      match (if i = "/" ∨ nm = some "/" then some rootLayer else reg.getLayerByID i) with
      | some layer => .ok (layer, reg)
      | none =>
        if nm = none ∨ autoCreateLayers = false then
          .error ("Unable to find layer by ID " ++ i ++ ", can not create a tree node")
        else .ok (reg.createLayer (nm.getD ""))
    match layerRes with
    | .error e => .error e
    | .ok (layer, reg1) =>
      let base : TreeNode :=
        if layer.id = "/" then .mk "/" rootLayer []
        else .mk layer.id ((reg1.getLayerByID layer.id).getD layer) []
      match btfjChildren autoCreateLayers reg1 cs with
      | .error e => .error e
      | .ok (childNodes, reg2) => .ok (childNodes.foldl TreeNode.addChild base, reg2)

/-- Child loop of `#buildTreeFromJson`: rebuilds each child in order,
threading the registry (createLayer mutates it). -/
def btfjChildren (autoCreateLayers : Bool) (reg : LayerIndex) :
    List JNode → Except String (List TreeNode × LayerIndex)
  | [] => .ok ([], reg)
  | c :: cs =>
    match btfjNode autoCreateLayers reg c with
    | .error e => .error e
    | .ok (c2, reg1) =>
      match btfjChildren autoCreateLayers reg1 cs with
      | .error e => .error e
      | .ok (cs2, reg2) => .ok (c2 :: cs2, reg2)

end

/-- Tree.#buildTreeFromJson (lines 405-440): a missing JSON value yields a
fresh root node. -/
def buildTreeFromJson (autoCreateLayers : Bool) (reg : LayerIndex) (json : Option JNode) :
    Except String (TreeNode × LayerIndex) :=
  match json with
  | none => .ok (.mk "/" rootLayer [], reg)
  | some j => btfjNode autoCreateLayers reg j

/-- Tree.load (lines 289-298): a missing persisted value returns `false`
and leaves the tree untouched; otherwise the root is rebuilt from the JSON
value. -/
def Tree.load (t : Tree) (json : Option JNode) : Except String (Tree × Bool) :=
  match json with
  | none => .ok (t, false)
  | some j =>
    match btfjNode true t.layers j with
    | .error e => .error e
    | .ok (root2, reg2) => .ok (⟨root2, reg2⟩, true)

/-- The identifier skeleton of a tree: same identifiers, same parent/child
structure, payloads erased. Two trees with equal shapes are isomorphic node
hierarchies in the sense of the round-trip law. -/
inductive IdTree where
  | mk (id : String) (children : List IdTree)

/-- Root identifier of a shape. -/
def IdTree.id : IdTree → String
  | .mk i _ => i

mutual

/-- Shape of a node. -/
def shape : TreeNode → IdTree
  | .mk i _ cs => .mk i (shapeList cs)

/-- Shapes of a node list. -/
def shapeList : List TreeNode → List IdTree
  | [] => []
  | c :: cs => shape c :: shapeList cs

end

/-- Identifiers of a node list. -/
def nodeIds (l : List TreeNode) : List String := l.map TreeNode.id

/-- Decidable check that the identifiers of a node list are pairwise
distinct (the child map of a materialized tree keys children by id). -/
def idsNodup (l : List TreeNode) : Bool := l.map TreeNode.id |>.Nodup

/-- Well-formedness of a non-root materialized subtree with respect to a
registry: the node id is not the root id, resolves in the registry, and the
children have pairwise distinct ids and are themselves well formed. Trees
produced by `insert` against their own registry satisfy this. -/
inductive WfChild (reg : LayerIndex) : TreeNode → Prop where
  | intro : ∀ (i : String) (p : Layer) (cs : List TreeNode),
      i ≠ "/" →
      (reg.getLayerByID i).isSome = true →
      idsNodup cs = true →
      (∀ c ∈ cs, WfChild reg c) →
      WfChild reg (.mk i p cs)

/-!
### Document index: `IndexD` (src/unnamed/part_002)
-/

/-- A schema value of the static registry (the `toJSON()` of a schema
class). The classes themselves are not under src/; the two fields shown by
part_000/part_001 are modelled and only non-nullness matters to the verified
claims. -/
structure Schema where
  stype : String
  schemaVersion : String
deriving DecidableEq

/-- DOCUMENT_SCHEMAS (part_002 lines 26-33): the static registry, keyed by
the bare schema names. The `default` and `tab` entries come from schema
classes missing from src/ and carry modelled field values. -/
def DOCUMENT_SCHEMAS : List (String × Schema) :=
  [("default", ⟨"data/abstraction/document", "2.0"⟩),
   ("file", ⟨"data/abstraction/file", "2.0"⟩),
   ("tab", ⟨"data/abstraction/tab", "2.0"⟩),
   ("note", ⟨"data/abstr/note", "2.0"⟩)]

/-- JavaScript String.prototype.includes('/') for schema names. -/
def includesSlash (s : String) : Bool := s.data.contains '/'

/-- IndexD.hasDocumentSchema (line 270): a bare registry lookup, truthy
exactly when the raw name is a key; no prefix handling. -/
def hasDocumentSchema (schema : String) : Bool :=
  (lookupKV DOCUMENT_SCHEMAS schema).isSome

/-- IndexD.getDocumentSchema (lines 272-277): names containing a "/" are
reduced to their last segment (`split('/').pop()`) before the lookup;
a missing entry yields null. -/
def getDocumentSchema (schema : String) : Option Schema :=
  let schema1 := if includesSlash schema then (jsSplitSlash schema).getLastD "" else schema
  lookupKV DOCUMENT_SCHEMAS schema1

/-- An unvalidated document as passed to insertDocument: optional id, type
name, content hash (hashes.sha1) and an opaque payload. -/
structure Doc where
  id : Option Nat
  dtype : String
  sha1 : String
  data : String
deriving DecidableEq

/-- A validated document record as stored in the documents dataset. -/
structure PDoc where
  id : Nat
  dtype : String
  sha1 : String
  data : String
deriving DecidableEq

/-- State of the document index: the three datasets created by the IndexD
constructor (documents, bitmaps, hash2oid). -/
structure IndexState where
  documents : List (Nat × PDoc)
  hash2oid : List (String × Nat)
  bitmaps : List (JsVal × Finset ℕ)
deriving DecidableEq

/-- Modelled from the spec: Db.getKeysCount() (the database wrapper is not
under src/); modelled as the total key count over the datasets, which makes
identifier allocation monotone as the spec requires. -/
def keysCount (st : IndexState) : Nat :=
  st.documents.length + st.hash2oid.length + st.bitmaps.length

/-- IndexD.#genDocumentID (lines 303-306): keysCount + 1000 (the postfix
increment acts on a local variable and is dropped). -/
def genDocumentID (st : IndexState) : Nat := keysCount st + 1000

/-- IndexD.#validateDocument (lines 293-301). Modelled from the spec for the
part living in the missing `schemas/Document` class: validation assigns a
fresh monotonically increasing object identifier when absent and carries the
declared type, content hash and payload through unchanged. -/
def validateDocument (st : IndexState) (doc : Doc) : PDoc :=
  ⟨doc.id.getD (genDocumentID st), doc.dtype, doc.sha1, doc.data⟩

/-- IndexD.#extractDocumentFeatures (lines 308-311): returns the empty
list. -/
def extractDocumentFeatures (_doc : PDoc) : List String := []

/-- IndexD.updateDocument (lines 221-223): returns true and writes
nothing. -/
def updateDocument (st : IndexState) (_doc : PDoc) : IndexState × Bool := (st, true)

/-- Outcome of insertDocument: the delegation result of updateDocument
(`true`), the parsed document on a full insert, or a thrown error. -/
inductive InsertOutcome where
  | updated
  | inserted (d : PDoc)
  | threw (msg : String)
deriving DecidableEq

/-- IndexD.insertDocument (lines 125-167). Validates the document, extracts
features, and checks `hash2oid` under the raw sha1 hash: a hit delegates to
`updateDocument`. Otherwise `Promise.all` issues the document write together
with `bmContexts.tickMany` and `bmFeatures.tickMany`; the IndexD constructor
(lines 90-108) builds these BitmapManagers over the shared bitmaps dataset
with the dataset *name string* as the cache argument, so the managers are
modelled with a `JsCache.jsString` cache and a fresh heap. The document
write commits; a tickMany rejection then propagates out of the awaited
`Promise.all`, skipping the final `hash2oid.put`, which also uses the raw
sha1 hash. -/
def insertDocument (st : IndexState) (doc : Doc) (contextArray featureArray : List String) :
    IndexState × InsertOutcome :=
  let parsed := validateDocument st doc
  let combinedFeatureArray := featureArray ++ extractDocumentFeatures parsed
  match lookupKV st.hash2oid parsed.sha1 with
  | some _ =>
    let (st1, _) := updateDocument st parsed
    (st1, .updated)
  | none =>
    let st1 : IndexState := { st with documents := setKV st.documents parsed.id parsed }
    let bmContexts : BM := ⟨st1.bitmaps, .jsString "contexts", []⟩
    match BM.tickMany bmContexts (contextArray.map JsVal.str) (.num parsed.id) true true with
    | .error e => (st1, .threw e)
    | .ok (_, bmContexts2) =>
      let st2 : IndexState := { st1 with bitmaps := bmContexts2.db }
      let bmFeatures : BM := ⟨st2.bitmaps, .jsString "features", []⟩
      match BM.tickMany bmFeatures (combinedFeatureArray.map JsVal.str) (.num parsed.id) true true with
      | .error e => (st2, .threw e)
      | .ok (_, bmFeatures2) =>
        let st3 : IndexState := { st2 with bitmaps := bmFeatures2.db }
        let st4 : IndexState := { st3 with hash2oid := setKV st3.hash2oid parsed.sha1 parsed.id }
        (st4, .inserted parsed)

/-- IndexD.getDocumentByHash (lines 171-181): composes "hashType/hash" as
the lookup key when a non-empty hash type is given, else uses the raw hash;
a miss in either the hash map or the documents dataset yields null. -/
def getDocumentByHash (st : IndexState) (hash : String) (hashType : String) : Option PDoc :=
  let fullHash := if hashType ≠ "" then hashType ++ "/" ++ hash else hash
  match lookupKV st.hash2oid fullHash with
  | none => none
  | some id => lookupKV st.documents id

/-!
### Concrete states used by the scenario theorems and witnesses
-/

/-- A key that, cached or not, has an empty or absent set: the shapes of
keys on which AND must short-circuit (the address of a cached empty set must
not alias one of the sets already folded, which `avoid` rules out). -/
def BadKey (m : List (JsVal × Nat)) (st : BM) (avoid : List Nat) (k : JsVal) : Prop :=
  (lookupKV m k = none ∧ lookupKV st.db k = none) ∨
  (∃ b, lookupKV m k = some b ∧ st.deref b = ∅ ∧ b ∉ avoid) ∨
  (lookupKV m k = none ∧ lookupKV st.db k = some ∅)

/-- A null or empty entry of the static AND argument array. -/
def BadEntry (st : BM) (avoid : List Nat) (b : Option Nat) : Prop :=
  b = none ∨ ∃ x, b = some x ∧ st.deref x = ∅ ∧ x ∉ avoid

/-- A fresh BitmapManager state with the constructor-default Map cache. -/
def bmEmpty : BM := ⟨[], .map [], []⟩

/-- Witness store: key "a" cached at address 0 holding {1, 2}. -/
def bmOneKey : BM := ⟨[], .map [(.str "a", 0)], [{1, 2}]⟩

/-- Witness store: keys "a", "b" cached at addresses 0, 1. -/
def bmTwoKeys : BM := ⟨[], .map [(.str "a", 0), (.str "b", 1)], [{1, 2}, {2, 3}]⟩

/-- Witness store with a persisted but uncached key "k". -/
def bmDbOnly : BM := ⟨[(.str "k", {1})], .map [], []⟩

/-- A fresh tree over an empty layer registry. -/
def tree0 : Tree := ⟨.mk "/" rootLayer [], ⟨[], 0⟩⟩

/-- The spec scenario tree: tree0 after insert("/work/reports"). -/
def tree1 : Tree := (tree0.insert "/work/reports" none true).1

/-- A fresh document index state. -/
def idx0 : IndexState := ⟨[], [], []⟩

/-- A note document with content hash "cafebabe". -/
def noteDoc1 : Doc := ⟨none, "data/abstr/note", "cafebabe", "payload one"⟩

/-- A different note document with the same content hash "cafebabe". -/
def noteDoc2 : Doc := ⟨none, "data/abstr/note", "cafebabe", "payload two"⟩

/-- The stored record of noteDoc1. -/
def notePDoc1 : PDoc := ⟨1000, "data/abstr/note", "cafebabe", "payload one"⟩

/-- An index state in which noteDoc1 is stored and its hash is mapped, as it
would be had insertDocument completed its final hash2oid write. -/
def idxSeeded : IndexState := ⟨[(1000, notePDoc1)], [("cafebabe", 1000)], []⟩

/-- Witness registry for the round-trip law. -/
def regW : LayerIndex := ⟨[⟨"1", "work"⟩, ⟨"2", "reports"⟩], 3⟩

/-- Witness tree for the round-trip law: / → work → reports. -/
def treeW : TreeNode := .mk "/" rootLayer [.mk "1" ⟨"1", "work"⟩ [.mk "2" ⟨"2", "reports"⟩ []]]

/-!
## Theorems

### List and heap helper lemmas
-/

theorem getD_set_self (l : List (Finset ℕ)) (i : Nat) (h : i < l.length) (v : Finset ℕ) :
    (l.set i v).getD i ∅ = v := by
  simp [List.getD, List.getElem?_set_self, h]

theorem getD_set_ne (l : List (Finset ℕ)) {i j : Nat} (h : i ≠ j) (v : Finset ℕ) :
    (l.set i v).getD j ∅ = l.getD j ∅ := by
  simp [List.getD, List.getElem?_set_ne h]

theorem set_getD_self : ∀ (l : List (Finset ℕ)) (i : Nat), i < l.length →
    l.set i (l.getD i ∅) = l
  | [], _, h => by simp at h
  | x :: xs, 0, _ => by simp [List.getD]
  | x :: xs, i + 1, h => by
    simp only [List.getD, List.getElem?_cons_succ, List.set_cons_succ, List.cons.injEq, true_and]
    exact set_getD_self xs i (by simpa using h)

theorem getD_append_len (l : List (Finset ℕ)) (x : Finset ℕ) :
    (l ++ [x]).getD l.length ∅ = x := by
  simp [List.getD, List.getElem?_concat_length]

theorem deref_lt_of_ne_empty (st : BM) (a : Nat) (h : st.deref a ≠ ∅) :
    a < st.heap.length := by
  by_contra hc
  exact h (by simp [BM.deref, List.getD, List.getElem?_eq_none (le_of_not_lt hc)])

theorem forall2_mono_mem {α β : Type} {R S : α → β → Prop} :
    ∀ {l1 : List α} {l2 : List β}, List.Forall₂ R l1 l2 →
      (∀ a ∈ l1, ∀ b ∈ l2, R a b → S a b) → List.Forall₂ S l1 l2
  | _, _, .nil, _ => .nil
  | _, _, .cons h t, himp =>
    .cons (himp _ (List.mem_cons_self ..) _ (List.mem_cons_self ..) h)
      (forall2_mono_mem t
        (fun a ha b hb hr => himp a (List.mem_cons_of_mem _ ha) b (List.mem_cons_of_mem _ hb) hr))

theorem foldl_inter_congr : ∀ (as : List Nat) (f g : Nat → Finset ℕ) (s : Finset ℕ),
    (∀ a ∈ as, f a = g a) →
    as.foldl (fun x a => x ∩ f a) s = as.foldl (fun x a => x ∩ g a) s
  | [], _, _, _, _ => rfl
  | a :: as, f, g, s, h => by
    simp only [List.foldl_cons]
    rw [h a (List.mem_cons_self ..)]
    exact foldl_inter_congr as f g _ (fun b hb => h b (List.mem_cons_of_mem _ hb))

/-!
### The AND loop: advancing over a prefix of cached non-empty keys
-/

/-- Advancing `ANDgo` over a run of keys cached at pairwise distinct
addresses (all distinct from the accumulator address `p`) with non-empty
sets: every step reads the next set unchanged and intersects it into the
object at `p` in place, and the keys are appended to the resolution trace. -/
theorem ANDgo_advance (m : List (JsVal × Nat)) :
    ∀ (pre : List JsVal) (addrs : List Nat) (st : BM) (p : Nat) (tr rest : List JsVal),
      st.cache = .map m →
      List.Forall₂ (fun k a => lookupKV m k = some a ∧ st.deref a ≠ ∅) pre addrs →
      (∀ a ∈ addrs, a ≠ p) →
      p < st.heap.length →
      BM.ANDgo st (some p) (pre ++ rest) tr =
        BM.ANDgo
          { st with heap := st.heap.set p (addrs.foldl (fun s a => s ∩ st.deref a) (st.deref p)) }
          (some p) rest (tr ++ pre)
  | [], addrs, st, p, tr, rest => fun _hc hf _ha hp => by
    cases hf
    simp only [List.nil_append, List.foldl_nil, List.append_nil]
    rw [show st.heap.set p (st.deref p) = st.heap from set_getD_self st.heap p hp]
  | k :: pre', addrs, st, p, tr, rest => fun hc hf ha hp => by
    cases hf with
    | @cons _ a _ addrs' hka hf' =>
      obtain ⟨hk, hne⟩ := hka
      have hap : a ≠ p := ha a (List.mem_cons_self ..)
      have e1 : BM.deref { st with heap := st.heap.set p (st.deref p ∩ st.deref a) } p =
          st.deref p ∩ st.deref a :=
        getD_set_self st.heap p hp _
      have e2 : ∀ b ∈ addrs',
          BM.deref { st with heap := st.heap.set p (st.deref p ∩ st.deref a) } b =
            st.deref b :=
        fun b hb => getD_set_ne st.heap (fun he => (ha b (List.mem_cons_of_mem _ hb)) he.symm) _
      have hstep :
          BM.ANDgo st (some p) ((k :: pre') ++ rest) tr =
            BM.ANDgo { st with heap := st.heap.set p (st.deref p ∩ st.deref a) }
              (some p) (pre' ++ rest) (tr ++ [k]) := by
        simp [BM.ANDgo, BM.getBitmap, hc, hk, hne]
      rw [hstep]
      rw [ANDgo_advance m pre' addrs'
        { st with heap := st.heap.set p (st.deref p ∩ st.deref a) } p (tr ++ [k]) rest
        hc
        (forall2_mono_mem hf' (fun k1 _hk1 b hb hr => ⟨hr.1, by rw [e2 b hb]; exact hr.2⟩))
        (fun b hb => ha b (List.mem_cons_of_mem _ hb))
        (by simpa using hp)]
      have hheap :
          (st.heap.set p (st.deref p ∩ st.deref a)).set p
              (addrs'.foldl
                (fun s b => s ∩ BM.deref { st with heap := st.heap.set p (st.deref p ∩ st.deref a) } b)
                (BM.deref { st with heap := st.heap.set p (st.deref p ∩ st.deref a) } p)) =
            st.heap.set p ((a :: addrs').foldl (fun s b => s ∩ st.deref b) (st.deref p)) := by
        rw [List.set_set, e1, List.foldl_cons]
        rw [foldl_inter_congr addrs' _ _ _ (fun b hb => e2 b hb)]
      simp only [hheap, List.append_assoc, List.singleton_append]

/-- AND over keys that are all cached, at pairwise distinct addresses, with
non-empty sets: the result is the object of the first key, overwritten in
place with the intersection of all the sets, and every key is resolved. -/
theorem AND_all_nonempty (m : List (JsVal × Nat)) (st : BM) (keys : List JsVal) (addrs : List Nat)
    (hc : st.cache = .map m)
    (hf : List.Forall₂ (fun k a => lookupKV m k = some a ∧ st.deref a ≠ ∅) keys addrs)
    (hd : addrs.Pairwise (fun a b => a ≠ b))
    (h0 : keys ≠ []) :
    ∃ a1 addrs', addrs = a1 :: addrs' ∧
      BM.AND st keys =
        .ok ⟨a1, { st with heap := st.heap.set a1 (inters (addrs.map st.deref)) }, keys⟩ := by
  cases hf with
  | nil => exact absurd rfl h0
  | @cons k1 a1 rest addrs' hka hf' =>
    obtain ⟨hk1, hne1⟩ := hka
    refine ⟨a1, addrs', rfl, ?_⟩
    have hp : a1 < st.heap.length := deref_lt_of_ne_empty st a1 hne1
    have ha2 : ∀ b ∈ addrs', b ≠ a1 := by
      intro b hb
      exact fun he => (List.rel_of_pairwise_cons hd hb) he.symm
    have hstep : BM.AND st (k1 :: rest) = BM.ANDgo st (some a1) rest [k1] := by
      simp [BM.AND, BM.ANDgo, BM.getBitmap, hc, hk1, hne1]
    rw [hstep]
    calc BM.ANDgo st (some a1) rest [k1]
        = BM.ANDgo st (some a1) (rest ++ []) [k1] := by rw [List.append_nil]
      _ = BM.ANDgo
            { st with heap := st.heap.set a1 (addrs'.foldl (fun s b => s ∩ st.deref b) (st.deref a1)) }
            (some a1) [] ([k1] ++ rest) :=
          ANDgo_advance m rest addrs' st a1 [k1] [] hc hf' ha2 hp
      _ = .ok ⟨a1, { st with heap := st.heap.set a1 (inters ((a1 :: addrs').map st.deref)) }, k1 :: rest⟩ := by
          simp [BM.ANDgo, inters, List.foldl_map]

/-- A single ANDgo step on a key that is missing, cached with an empty set,
or persisted as an empty blob: it returns a fresh empty bitmap at once, with
only this key appended to the resolution trace. -/
theorem ANDgo_bad_first (m : List (JsVal × Nat)) (st : BM) (acc : Option Nat) (k : JsVal)
    (post tr : List JsVal)
    (hc : st.cache = .map m)
    (hbad : (lookupKV m k = none ∧ lookupKV st.db k = none) ∨
      (∃ b, lookupKV m k = some b ∧ st.deref b = ∅) ∨
      (lookupKV m k = none ∧ lookupKV st.db k = some ∅)) :
    ∃ a st2, BM.ANDgo st acc (k :: post) tr = .ok ⟨a, st2, tr ++ [k]⟩ ∧ st2.deref a = ∅ := by
  rcases hbad with ⟨h1, h2⟩ | ⟨b, hb, hbe⟩ | ⟨h1, h2⟩
  · exact ⟨st.heap.length, { st with heap := st.heap ++ [∅] },
      by simp [BM.ANDgo, BM.getBitmap, BM.alloc, hc, h1, h2],
      by simpa [BM.deref] using getD_append_len st.heap ∅⟩
  · exact ⟨st.heap.length, { st with heap := st.heap ++ [∅] },
      by simp [BM.ANDgo, BM.getBitmap, BM.alloc, hc, hb, hbe],
      by simpa [BM.deref] using getD_append_len st.heap ∅⟩
  · refine ⟨st.heap.length + 1, { st with heap := (st.heap ++ [∅]) ++ [∅] }, ?_, ?_⟩
    · simp [BM.ANDgo, BM.getBitmap, BM.alloc, hc, h1, h2, BM.deref, getD_append_len]
    · have h3 := getD_append_len (st.heap ++ [∅]) ∅
      simpa [BM.deref, List.length_append] using h3

/-- AND over a run of cached non-empty keys followed by a key that is
missing or resolves to an empty set: the result is a fresh empty bitmap and
only the keys up to and including the offending one are resolved. -/
theorem AND_shortcircuits (m : List (JsVal × Nat)) (st : BM) (pre : List JsVal)
    (addrs : List Nat) (k : JsVal) (post : List JsVal)
    (hc : st.cache = .map m)
    (hf : List.Forall₂ (fun k1 a => lookupKV m k1 = some a ∧ st.deref a ≠ ∅) pre addrs)
    (hd : addrs.Pairwise (fun a b => a ≠ b))
    (hbad : BadKey m st addrs k) :
    ∃ a st2, BM.AND st (pre ++ k :: post) = .ok ⟨a, st2, pre ++ [k]⟩ ∧ st2.deref a = ∅ := by
  cases hf with
  | nil =>
    have h0 : BM.AND st (k :: post) = BM.ANDgo st none (k :: post) [] := by simp [BM.AND]
    have hbad' : (lookupKV m k = none ∧ lookupKV st.db k = none) ∨
        (∃ b, lookupKV m k = some b ∧ st.deref b = ∅) ∨
        (lookupKV m k = none ∧ lookupKV st.db k = some ∅) := by
      rcases hbad with h | ⟨b, hb, hbe, _⟩ | h
      · exact Or.inl h
      · exact Or.inr (Or.inl ⟨b, hb, hbe⟩)
      · exact Or.inr (Or.inr h)
    obtain ⟨a, st2, he, hd2⟩ := ANDgo_bad_first m st none k post [] hc hbad'
    exact ⟨a, st2, by simpa [h0] using he, hd2⟩
  | @cons k1 a1 pre' addrs' hka hf' =>
    obtain ⟨hk1, hne1⟩ := hka
    have hp : a1 < st.heap.length := deref_lt_of_ne_empty st a1 hne1
    have ha2 : ∀ b ∈ addrs', b ≠ a1 :=
      fun b hb he => (List.rel_of_pairwise_cons hd hb) he.symm
    have hstep : BM.AND st ((k1 :: pre') ++ k :: post) =
        BM.ANDgo st (some a1) (pre' ++ k :: post) [k1] := by
      simp [BM.AND, BM.ANDgo, BM.getBitmap, hc, hk1, hne1]
    have hadv : BM.ANDgo st (some a1) (pre' ++ (k :: post)) [k1] =
        BM.ANDgo
          { st with heap := st.heap.set a1 (addrs'.foldl (fun s b => s ∩ st.deref b) (st.deref a1)) }
          (some a1) (k :: post) ([k1] ++ pre') :=
      ANDgo_advance m pre' addrs' st a1 [k1] (k :: post) hc hf' ha2 hp
    have hbad' : (lookupKV m k = none ∧
        lookupKV (BM.db { st with heap := st.heap.set a1 (addrs'.foldl (fun s b => s ∩ st.deref b) (st.deref a1)) }) k = none) ∨
        (∃ b, lookupKV m k = some b ∧
          BM.deref { st with heap := st.heap.set a1 (addrs'.foldl (fun s b => s ∩ st.deref b) (st.deref a1)) } b = ∅) ∨
        (lookupKV m k = none ∧
          lookupKV (BM.db { st with heap := st.heap.set a1 (addrs'.foldl (fun s b => s ∩ st.deref b) (st.deref a1)) }) k = some ∅) := by
      rcases hbad with h | ⟨b, hb, hbe, hbn⟩ | h
      · exact Or.inl h
      · refine Or.inr (Or.inl ⟨b, hb, ?_⟩)
        have hbne : b ≠ a1 := fun he => hbn (he ▸ List.mem_cons_self ..)
        rw [show BM.deref { st with heap := st.heap.set a1 (addrs'.foldl (fun s b => s ∩ st.deref b) (st.deref a1)) } b = st.deref b
          from getD_set_ne st.heap (fun he => hbne he.symm) _]
        exact hbe
      · exact Or.inr (Or.inr h)
    obtain ⟨a, st2, he, hd2⟩ := ANDgo_bad_first m
      { st with heap := st.heap.set a1 (addrs'.foldl (fun s b => s ∩ st.deref b) (st.deref a1)) }
      (some a1) k post ([k1] ++ pre') hc hbad'
    refine ⟨a, st2, ?_, hd2⟩
    rw [show (k1 :: pre') ++ k :: post = k1 :: (pre' ++ k :: post) from rfl] at hstep
    calc BM.AND st ((k1 :: pre') ++ k :: post) = BM.ANDgo st (some a1) (pre' ++ k :: post) [k1] := by
          rw [show (k1 :: pre') ++ k :: post = k1 :: (pre' ++ k :: post) from rfl, hstep]
      _ = .ok ⟨a, st2, ([k1] ++ pre') ++ [k]⟩ := by rw [hadv, he]
      _ = .ok ⟨a, st2, (k1 :: pre') ++ [k]⟩ := by simp

/-- Advancing the static ANDgo over a run of non-null entries with pairwise
distinct addresses (all distinct from the accumulator `p`) and non-empty
sets. -/
theorem ANDsgo_advance :
    ∀ (addrs : List Nat) (st : BM) (p : Nat) (rest : List (Option Nat)),
      (∀ a ∈ addrs, st.deref a ≠ ∅) →
      (∀ a ∈ addrs, a ≠ p) →
      p < st.heap.length →
      BM.ANDstaticGo st (some p) (addrs.map some ++ rest) =
        BM.ANDstaticGo
          { st with heap := st.heap.set p (addrs.foldl (fun s a => s ∩ st.deref a) (st.deref p)) }
          (some p) rest
  | [], st, p, rest => fun _ _ hp => by
    simp only [List.map_nil, List.nil_append, List.foldl_nil]
    rw [show st.heap.set p (st.deref p) = st.heap from set_getD_self st.heap p hp]
  | a :: addrs', st, p, rest => fun hne ha hp => by
    have hnea : st.deref a ≠ ∅ := hne a (List.mem_cons_self ..)
    have hap : a ≠ p := ha a (List.mem_cons_self ..)
    have e1 : BM.deref { st with heap := st.heap.set p (st.deref p ∩ st.deref a) } p =
        st.deref p ∩ st.deref a :=
      getD_set_self st.heap p hp _
    have e2 : ∀ b ∈ addrs',
        BM.deref { st with heap := st.heap.set p (st.deref p ∩ st.deref a) } b = st.deref b :=
      fun b hb => getD_set_ne st.heap (fun he => (ha b (List.mem_cons_of_mem _ hb)) he.symm) _
    have hstep : BM.ANDstaticGo st (some p) ((a :: addrs').map some ++ rest) =
        BM.ANDstaticGo { st with heap := st.heap.set p (st.deref p ∩ st.deref a) }
          (some p) (addrs'.map some ++ rest) := by
      simp [BM.ANDstaticGo, hnea]
    rw [hstep]
    rw [ANDsgo_advance addrs'
      { st with heap := st.heap.set p (st.deref p ∩ st.deref a) } p rest
      (fun b hb => by rw [e2 b hb]; exact hne b (List.mem_cons_of_mem _ hb))
      (fun b hb => ha b (List.mem_cons_of_mem _ hb))
      (by simpa using hp)]
    have hheap :
        (st.heap.set p (st.deref p ∩ st.deref a)).set p
            (addrs'.foldl
              (fun s b => s ∩ BM.deref { st with heap := st.heap.set p (st.deref p ∩ st.deref a) } b)
              (BM.deref { st with heap := st.heap.set p (st.deref p ∩ st.deref a) } p)) =
          st.heap.set p ((a :: addrs').foldl (fun s b => s ∩ st.deref b) (st.deref p)) := by
      rw [List.set_set, e1, List.foldl_cons]
      rw [foldl_inter_congr addrs' _ _ _ (fun b hb => e2 b hb)]
    simp only [hheap]

/-- Static AND over non-null entries with pairwise distinct addresses and
non-empty sets: the first object is overwritten in place with the
intersection of all the sets and returned. -/
theorem ANDstatic_all_nonempty (st : BM) (addrs : List Nat)
    (hne : ∀ a ∈ addrs, st.deref a ≠ ∅)
    (hd : addrs.Pairwise (fun a b => a ≠ b))
    (h0 : addrs ≠ []) :
    ∃ a1 addrs', addrs = a1 :: addrs' ∧
      BM.ANDstatic st (addrs.map some) =
        ⟨a1, { st with heap := st.heap.set a1 (inters (addrs.map st.deref)) }⟩ := by
  cases addrs with
  | nil => exact absurd rfl h0
  | cons a1 addrs' =>
    refine ⟨a1, addrs', rfl, ?_⟩
    have hne1 : st.deref a1 ≠ ∅ := hne a1 (List.mem_cons_self ..)
    have hp : a1 < st.heap.length := deref_lt_of_ne_empty st a1 hne1
    have ha2 : ∀ b ∈ addrs', b ≠ a1 :=
      fun b hb he => (List.rel_of_pairwise_cons hd hb) he.symm
    have hstep : BM.ANDstatic st ((a1 :: addrs').map some) =
        BM.ANDstaticGo st (some a1) (addrs'.map some) := by
      simp [BM.ANDstatic, BM.ANDstaticGo, hne1]
    rw [hstep]
    calc BM.ANDstaticGo st (some a1) (addrs'.map some)
        = BM.ANDstaticGo st (some a1) (addrs'.map some ++ []) := by rw [List.append_nil]
      _ = BM.ANDstaticGo
            { st with heap := st.heap.set a1 (addrs'.foldl (fun s b => s ∩ st.deref b) (st.deref a1)) }
            (some a1) [] :=
          ANDsgo_advance addrs' st a1 []
            (fun b hb => hne b (List.mem_cons_of_mem _ hb)) ha2 hp
      _ = ⟨a1, { st with heap := st.heap.set a1 (inters ((a1 :: addrs').map st.deref)) }⟩ := by
          simp [BM.ANDstaticGo, inters, List.foldl_map]

/-- A single static ANDgo step on a null or empty entry: a fresh empty
bitmap is returned at once. -/
theorem ANDsgo_bad_first (st : BM) (acc : Option Nat) (bad : Option Nat)
    (post : List (Option Nat))
    (hbad : bad = none ∨ ∃ x, bad = some x ∧ st.deref x = ∅) :
    ∃ a st2, BM.ANDstaticGo st acc (bad :: post) = ⟨a, st2⟩ ∧ st2.deref a = ∅ := by
  rcases hbad with h | ⟨x, hx, hxe⟩
  · exact ⟨st.heap.length, { st with heap := st.heap ++ [∅] },
      by simp [BM.ANDstaticGo, BM.alloc, h],
      by simpa [BM.deref] using getD_append_len st.heap ∅⟩
  · exact ⟨st.heap.length, { st with heap := st.heap ++ [∅] },
      by simp [BM.ANDstaticGo, BM.alloc, hx, hxe],
      by simpa [BM.deref] using getD_append_len st.heap ∅⟩

/-- Static AND over a run of good entries followed by a null or empty entry:
a fresh empty bitmap is returned. -/
theorem ANDstatic_shortcircuits (st : BM) (addrs : List Nat) (bad : Option Nat)
    (post : List (Option Nat))
    (hne : ∀ a ∈ addrs, st.deref a ≠ ∅)
    (hd : addrs.Pairwise (fun a b => a ≠ b))
    (hbad : BadEntry st addrs bad) :
    ∃ a st2, BM.ANDstatic st (addrs.map some ++ bad :: post) = ⟨a, st2⟩ ∧ st2.deref a = ∅ := by
  cases addrs with
  | nil =>
    have hbad' : bad = none ∨ ∃ x, bad = some x ∧ st.deref x = ∅ := by
      rcases hbad with h | ⟨x, hx, hxe, _⟩
      · exact Or.inl h
      · exact Or.inr ⟨x, hx, hxe⟩
    obtain ⟨a, st2, he, hd2⟩ := ANDsgo_bad_first st none bad post hbad'
    refine ⟨a, st2, ?_, hd2⟩
    simpa [BM.ANDstatic] using he
  | cons a1 addrs' =>
    have hne1 : st.deref a1 ≠ ∅ := hne a1 (List.mem_cons_self ..)
    have hp : a1 < st.heap.length := deref_lt_of_ne_empty st a1 hne1
    have ha2 : ∀ b ∈ addrs', b ≠ a1 :=
      fun b hb he => (List.rel_of_pairwise_cons hd hb) he.symm
    have hstep : BM.ANDstatic st ((a1 :: addrs').map some ++ bad :: post) =
        BM.ANDstaticGo st (some a1) (addrs'.map some ++ bad :: post) := by
      simp [BM.ANDstatic, BM.ANDstaticGo, hne1]
    have hadv := ANDsgo_advance addrs' st a1 (bad :: post)
      (fun b hb => hne b (List.mem_cons_of_mem _ hb)) ha2 hp
    have hbad' : bad = none ∨ ∃ x, bad = some x ∧
        BM.deref { st with heap := st.heap.set a1 (addrs'.foldl (fun s b => s ∩ st.deref b) (st.deref a1)) } x = ∅ := by
      rcases hbad with h | ⟨x, hx, hxe, hxn⟩
      · exact Or.inl h
      · refine Or.inr ⟨x, hx, ?_⟩
        have hxne : x ≠ a1 := fun he => hxn (he ▸ List.mem_cons_self ..)
        rw [show BM.deref { st with heap := st.heap.set a1 (addrs'.foldl (fun s b => s ∩ st.deref b) (st.deref a1)) } x = st.deref x
          from getD_set_ne st.heap (fun he => hxne he.symm) _]
        exact hxe
    obtain ⟨a, st2, he, hd2⟩ := ANDsgo_bad_first
      { st with heap := st.heap.set a1 (addrs'.foldl (fun s b => s ∩ st.deref b) (st.deref a1)) }
      (some a1) bad post hbad'
    exact ⟨a, st2, by rw [hstep, hadv, he], hd2⟩

/-- C3: AND([]) returns an empty set having resolved nothing; as soon as any
key resolves to a missing or empty set, AND returns an empty set with only
the keys up to and including that one resolved through getBitmap (the
resolution trace: later keys are never loaded); when all keys resolve to
non-empty sets it returns their intersection. The static variant over a list
of already-resolved sets satisfies the same three laws. Keyed parts are
stated for stores whose listed keys are cached at pairwise distinct
addresses, the aliasing-free configurations. -/
theorem AND_query_spec :
    (∀ st : BM, BM.AND st [] =
      .ok ⟨st.heap.length, { st with heap := st.heap ++ [∅] }, []⟩) ∧
    (∀ (m : List (JsVal × Nat)) (st : BM) (pre : List JsVal) (addrs : List Nat)
        (k : JsVal) (post : List JsVal),
      st.cache = .map m →
      List.Forall₂ (fun k1 a => lookupKV m k1 = some a ∧ st.deref a ≠ ∅) pre addrs →
      addrs.Pairwise (fun a b => a ≠ b) →
      BadKey m st addrs k →
      ∃ a st2, BM.AND st (pre ++ k :: post) = .ok ⟨a, st2, pre ++ [k]⟩ ∧ st2.deref a = ∅) ∧
    (∀ (m : List (JsVal × Nat)) (st : BM) (keys : List JsVal) (addrs : List Nat),
      st.cache = .map m →
      List.Forall₂ (fun k1 a => lookupKV m k1 = some a ∧ st.deref a ≠ ∅) keys addrs →
      addrs.Pairwise (fun a b => a ≠ b) →
      keys ≠ [] →
      ∃ a1 st2, BM.AND st keys = .ok ⟨a1, st2, keys⟩ ∧
        st2.deref a1 = inters (addrs.map st.deref)) ∧
    (∀ st : BM, BM.ANDstatic st [] = ⟨st.heap.length, { st with heap := st.heap ++ [∅] }⟩) ∧
    (∀ (st : BM) (addrs : List Nat) (bad : Option Nat) (post : List (Option Nat)),
      (∀ a ∈ addrs, st.deref a ≠ ∅) →
      addrs.Pairwise (fun a b => a ≠ b) →
      BadEntry st addrs bad →
      ∃ a st2, BM.ANDstatic st (addrs.map some ++ bad :: post) = ⟨a, st2⟩ ∧ st2.deref a = ∅) ∧
    (∀ (st : BM) (addrs : List Nat),
      (∀ a ∈ addrs, st.deref a ≠ ∅) →
      addrs.Pairwise (fun a b => a ≠ b) →
      addrs ≠ [] →
      ∃ a1 st2, BM.ANDstatic st (addrs.map some) = ⟨a1, st2⟩ ∧
        st2.deref a1 = inters (addrs.map st.deref)) := by
  refine ⟨?_, ?_, ?_, ?_, ?_, ?_⟩
  · intro st
    simp [BM.AND, BM.alloc]
  · intro m st pre addrs k post hc hf hd hbad
    exact AND_shortcircuits m st pre addrs k post hc hf hd hbad
  · intro m st keys addrs hc hf hd h0
    obtain ⟨a1, addrs', haddrs, he⟩ := AND_all_nonempty m st keys addrs hc hf hd h0
    refine ⟨a1, _, he, ?_⟩
    have hne1 : st.deref a1 ≠ ∅ := by
      cases hf with
      | nil => simp at haddrs
      | cons hka hf' =>
        cases haddrs
        exact hka.2
    exact getD_set_self st.heap a1 (deref_lt_of_ne_empty st a1 hne1) _
  · intro st
    simp [BM.ANDstatic, BM.alloc]
  · intro st addrs bad post hne hd hbad
    exact ANDstatic_shortcircuits st addrs bad post hne hd hbad
  · intro st addrs hne hd h0
    obtain ⟨a1, addrs', haddrs, he⟩ := ANDstatic_all_nonempty st addrs hne hd h0
    refine ⟨a1, _, he, ?_⟩
    have hne1 : st.deref a1 ≠ ∅ := hne a1 (haddrs ▸ List.mem_cons_self ..)
    exact getD_set_self st.heap a1 (deref_lt_of_ne_empty st a1 hne1) _

/-- Witness for C3 at a concrete store: key "a" is cached at address 0 with
{1, 2}, key "b" is absent; AND(["a", "b", "c"]) returns an empty set having
resolved only "a" and "b" — "c" is never loaded. -/
theorem AND_query_spec_witness :
    (bmOneKey.cache = .map [(.str "a", 0)] ∧
      lookupKV ([(JsVal.str "a", 0)] : List (JsVal × Nat)) (JsVal.str "a") = some 0 ∧
      bmOneKey.deref 0 ≠ ∅ ∧
      BadKey [(.str "a", 0)] bmOneKey [0] (.str "b")) ∧
    (∃ a st2, BM.AND bmOneKey ([.str "a"] ++ .str "b" :: [.str "c"]) =
      .ok ⟨a, st2, [.str "a"] ++ [.str "b"]⟩ ∧ st2.deref a = ∅) :=
  ⟨⟨rfl, by decide, by decide, Or.inl ⟨by decide, by decide⟩⟩,
    AND_query_spec.2.1 [(.str "a", 0)] bmOneKey [.str "a"] [0] (.str "b") [.str "c"]
      rfl (.cons ⟨by decide, by decide⟩ .nil) (by decide)
      (Or.inl ⟨by decide, by decide⟩)⟩

/-- C9: with the key list resolving (here: cached) to at least two non-empty
sets at pairwise distinct addresses, AND computes the intersection by
mutating the first resolved set object in place: in the resulting state the
heap cell of the first key's object is overwritten with the query result.
The same holds for the static variant over already-resolved sets. The final
conjunct exhibits a concrete two-key store in which the set cached under the
first key changes from {1, 2} to {2}: the query is not read-only. -/
theorem AND_mutates_first_operand :
    (∀ (m : List (JsVal × Nat)) (st : BM) (keys : List JsVal) (addrs : List Nat),
      st.cache = .map m →
      List.Forall₂ (fun k1 a => lookupKV m k1 = some a ∧ st.deref a ≠ ∅) keys addrs →
      addrs.Pairwise (fun a b => a ≠ b) →
      2 ≤ keys.length →
      ∃ a1 addrs', addrs = a1 :: addrs' ∧
        BM.AND st keys =
          .ok ⟨a1, { st with heap := st.heap.set a1 (inters (addrs.map st.deref)) }, keys⟩) ∧
    (∀ (st : BM) (addrs : List Nat),
      (∀ a ∈ addrs, st.deref a ≠ ∅) →
      addrs.Pairwise (fun a b => a ≠ b) →
      2 ≤ addrs.length →
      ∃ a1 addrs', addrs = a1 :: addrs' ∧
        BM.ANDstatic st (addrs.map some) =
          ⟨a1, { st with heap := st.heap.set a1 (inters (addrs.map st.deref)) }⟩) ∧
    ((BM.AND bmTwoKeys [.str "a", .str "b"] =
        .ok ⟨0, ⟨[], .map [(.str "a", 0), (.str "b", 1)], [{2}, {2, 3}]⟩,
          [.str "a", .str "b"]⟩) ∧
      bmTwoKeys.deref 0 = {1, 2} ∧
      (BM.ANDstatic bmTwoKeys [some 0, some 1] =
        ⟨0, ⟨[], .map [(.str "a", 0), (.str "b", 1)], [{2}, {2, 3}]⟩⟩) ∧
      ({2} : Finset ℕ) ≠ {1, 2}) := by
  refine ⟨?_, ?_, by decide, by decide, by decide, by decide⟩
  · intro m st keys addrs hc hf hd hlen
    exact AND_all_nonempty m st keys addrs hc hf hd
      (by rintro rfl; simp at hlen)
  · intro st addrs hne hd hlen
    exact ANDstatic_all_nonempty st addrs hne hd
      (by rintro rfl; simp at hlen)

/-!
### Round-trip of the compact tree serialization
-/

theorem getLayerByID_id (reg : LayerIndex) (i : String) (l : Layer)
    (h : reg.getLayerByID i = some l) : l.id = i := by
  have := List.find?_some h
  simpa using this

/-- The serialization of a child as rendered by the child loop coincides
with its recursive serialization (a leaf serializes to `{id, children: []}`
either way). -/
theorem bjit_entry (c : TreeNode) :
    (if c.hasChildren then buildJsonIndexTree c else JNode.mk c.id none []) =
      buildJsonIndexTree c := by
  cases c with
  | mk i p cs =>
    cases cs with
    | nil => simp [TreeNode.hasChildren, TreeNode.isLeaf, TreeNode.children,
        buildJsonIndexTree, bjitChildren, TreeNode.id]
    | cons d ds => simp [TreeNode.hasChildren, TreeNode.isLeaf, TreeNode.children]

theorem shapeList_map_id : ∀ l : List TreeNode, (shapeList l).map IdTree.id = nodeIds l
  | [] => rfl
  | c :: cs => by
    cases c with
    | mk i p cs' =>
      simp only [shapeList, shape, List.map_cons, IdTree.id, nodeIds, TreeNode.id]
      have := shapeList_map_id cs
      simp [nodeIds] at this
      simp [this]

theorem nodeIds_eq_of_shapeList_eq {l1 l2 : List TreeNode}
    (h : shapeList l1 = shapeList l2) : nodeIds l1 = nodeIds l2 := by
  rw [← shapeList_map_id, ← shapeList_map_id, h]

/-- Folding addChild over children with fresh, pairwise distinct ids appends
them all in order. -/
theorem foldl_addChild : ∀ (l : List TreeNode) (i : String) (p : Layer) (acc : List TreeNode),
    (∀ c ∈ l, c.id ∉ nodeIds acc) → (nodeIds l).Nodup →
    l.foldl TreeNode.addChild (.mk i p acc) = .mk i p (acc ++ l)
  | [], i, p, acc, _, _ => by simp
  | c :: l', i, p, acc, hdisj, hnodup => by
    have hcid : c.id ∉ nodeIds acc := hdisj c (List.mem_cons_self ..)
    have hfind : acc.find? (fun x => x.id = c.id) = none := by
      rw [List.find?_eq_none]
      intro x hx
      simp only [decide_eq_true_eq]
      exact fun he => hcid (he ▸ List.mem_map_of_mem TreeNode.id hx)
    have hhc : TreeNode.hasChild (.mk i p acc) c.id = false := by
      simp only [TreeNode.hasChild, TreeNode.getChild, TreeNode.children, hfind,
        Option.isSome_none]
    have hstep : TreeNode.addChild (.mk i p acc) c = .mk i p (acc ++ [c]) := by
      rw [TreeNode.addChild, hhc]
      simp [TreeNode.id, TreeNode.payload, TreeNode.children]
    have hnodup' : (nodeIds l').Nodup := by
      simpa [nodeIds] using (List.nodup_cons.mp (by simpa [nodeIds] using hnodup)).2
    have hhead : c.id ∉ nodeIds l' :=
      (List.nodup_cons.mp (by simpa [nodeIds] using hnodup)).1
    have hdisj' : ∀ d ∈ l', d.id ∉ nodeIds (acc ++ [c]) := by
      intro d hd hmem
      simp only [nodeIds, List.map_append, List.map_cons, List.map_nil, List.mem_append,
        List.mem_singleton] at hmem
      rcases hmem with h | h
      · exact hdisj d (List.mem_cons_of_mem _ hd) h
      · exact hhead (h ▸ List.mem_map_of_mem TreeNode.id hd)
    calc (c :: l').foldl TreeNode.addChild (.mk i p acc)
        = l'.foldl TreeNode.addChild (.mk i p (acc ++ [c])) := by rw [List.foldl_cons, hstep]
      _ = .mk i p ((acc ++ [c]) ++ l') := foldl_addChild l' i p (acc ++ [c]) hdisj' hnodup'
      _ = .mk i p (acc ++ c :: l') := by simp

mutual

/-- Rebuilding the compact serialization of a well-formed subtree resolves
its layer by id without touching the registry and reproduces the shape. -/
theorem btfj_bjit_node (auto : Bool) (reg : LayerIndex) :
    ∀ c : TreeNode, WfChild reg c →
      ∃ c2, btfjNode auto reg (buildJsonIndexTree c) = .ok (c2, reg) ∧ shape c2 = shape c
  | .mk i p cs => fun hwf => by
    cases hwf with
    | intro _ _ _ hiroot hsome hnodup hwfcs =>
      obtain ⟨l, hl⟩ := Option.isSome_iff_exists.mp hsome
      have hlid : l.id = i := getLayerByID_id reg i l hl
      obtain ⟨cs2, hcs2, hshape⟩ := btfj_bjit_list auto reg cs hwfcs
      have hnodup2 : (nodeIds cs2).Nodup := by
        rw [nodeIds_eq_of_shapeList_eq hshape]
        simpa [idsNodup, nodeIds] using hnodup
      refine ⟨.mk i l cs2, ?_, by simp [shape, hshape]⟩
      have hfold := foldl_addChild cs2 i l [] (by simp [nodeIds]) hnodup2
      simp [buildJsonIndexTree, btfjNode, hl, hlid, hcs2, hiroot, hfold]

/-- Rebuilding the serialized child list of well-formed children reproduces
the shapes in order, without touching the registry. -/
theorem btfj_bjit_list (auto : Bool) (reg : LayerIndex) :
    ∀ cs : List TreeNode, (∀ c ∈ cs, WfChild reg c) →
      ∃ cs2, btfjChildren auto reg (bjitChildren cs) = .ok (cs2, reg) ∧
        shapeList cs2 = shapeList cs
  | [] => fun _ => ⟨[], by simp [bjitChildren, btfjChildren], rfl⟩
  | c :: cs' => fun h => by
    obtain ⟨c2, hc2, hcshape⟩ := btfj_bjit_node auto reg c (h c (List.mem_cons_self ..))
    obtain ⟨cs2', hcs2', hshape'⟩ :=
      btfj_bjit_list auto reg cs' (fun d hd => h d (List.mem_cons_of_mem _ hd))
    refine ⟨c2 :: cs2', ?_, by simp [shapeList, hcshape, hshape']⟩
    simp [bjitChildren, bjit_entry, btfjChildren, hc2, hcs2']

end

/-- C5: serializing a reachable tree to the compact persisted form
(identifier plus child list per node, `buildJsonIndexTree`) and rebuilding
from that JSON (`buildTreeFromJson`, the loader used by `Tree.load`)
reproduces an isomorphic node hierarchy: the rebuilt tree has the same
identifiers and the same parent/child structure (`shape`), one node per
serialized node, and the registry is untouched. Stated for trees rooted at
the fixed root id whose subtrees are well formed for the registry: every
non-root identifier resolves and sibling identifiers are pairwise distinct,
as holds for every tree materialized through `insert`. -/
theorem tree_compact_roundtrip (reg : LayerIndex) (t : TreeNode)
    (hroot : t.id = "/")
    (hwf : ∀ c ∈ t.children, WfChild reg c)
    (hnodup : idsNodup t.children = true) :
    ∃ t2, buildTreeFromJson true reg (some (buildJsonIndexTree t)) = .ok (t2, reg) ∧
      shape t2 = shape t := by
  cases t with
  | mk i p cs =>
    simp only [TreeNode.id] at hroot
    subst hroot
    simp only [TreeNode.children] at hwf hnodup
    obtain ⟨cs2, hcs2, hshape⟩ := btfj_bjit_list true reg cs hwf
    have hnodup2 : (nodeIds cs2).Nodup := by
      rw [nodeIds_eq_of_shapeList_eq hshape]
      simpa [idsNodup, nodeIds] using hnodup
    refine ⟨.mk "/" rootLayer cs2, ?_, by simp [shape, hshape]⟩
    have hfold := foldl_addChild cs2 "/" rootLayer [] (by simp [nodeIds]) hnodup2
    simp [buildTreeFromJson, buildJsonIndexTree, btfjNode,
      show rootLayer.id = "/" from rfl, hcs2, hfold]

/-- The witness tree / → work → reports is well formed for its registry. -/
theorem treeW_wf : ∀ c ∈ treeW.children, WfChild regW c := by
  intro c hc
  simp only [treeW, TreeNode.children, List.mem_singleton] at hc
  subst hc
  refine WfChild.intro _ _ _ (by decide) (by decide) (by decide) ?_
  intro d hd
  simp only [List.mem_singleton] at hd
  subst hd
  refine WfChild.intro _ _ _ (by decide) (by decide) (by decide) ?_
  intro e he
  simp at he

/-- Witness for C5 at the concrete registry regW and tree treeW. -/
theorem tree_compact_roundtrip_witness :
    (treeW.id = "/" ∧ idsNodup treeW.children = true) ∧
    (∃ t2, buildTreeFromJson true regW (some (buildJsonIndexTree treeW)) = .ok (t2, regW) ∧
      shape t2 = shape treeW) :=
  ⟨⟨rfl, by decide⟩, tree_compact_roundtrip regW treeW rfl treeW_wf (by decide)⟩

/-- Witness for C9 at the concrete two-key store bmTwoKeys. -/
theorem AND_mutates_first_operand_witness :
    (bmTwoKeys.cache = .map [(.str "a", 0), (.str "b", 1)] ∧
      bmTwoKeys.deref 0 ≠ ∅ ∧ bmTwoKeys.deref 1 ≠ ∅ ∧
      2 ≤ ([JsVal.str "a", JsVal.str "b"] : List JsVal).length) ∧
    (∃ a1 addrs', ([0, 1] : List Nat) = a1 :: addrs' ∧
      BM.AND bmTwoKeys [.str "a", .str "b"] =
        .ok ⟨a1, { bmTwoKeys with
          heap := bmTwoKeys.heap.set a1 (inters (([0, 1] : List Nat).map bmTwoKeys.deref)) },
          [.str "a", .str "b"]⟩) :=
  ⟨⟨rfl, by decide, by decide, by decide⟩,
    AND_mutates_first_operand.1 [(.str "a", 0), (.str "b", 1)] bmTwoKeys
      [.str "a", .str "b"] [0, 1] rfl
      (.cons ⟨by decide, by decide⟩ (.cons ⟨by decide, by decide⟩ .nil))
      (by decide) (by decide)⟩

/-- C1: the claim states that move(p, q, recursive=false) detaches the
source node and re-parents its children, leaving getNode(p) not-found and
getNode(q) resolving. On the spec scenario itself (insert "/work/reports",
then move it to "/archive/reports") the embedded code returns `false` and
leaves the source attached: `insert` returns `undefined` on success, the
`!this.insert(...)` check therefore always takes the failure branch, and the
method exits before `removeChild`. Both the source and the destination paths
resolve afterwards, contradicting the claimed not-found at the source. -/
theorem move_nonrecursive_scenario :
    (tree1.getNode "/work/reports").isSome = true ∧
    (tree1.getNode (parentPathOf "/work/reports")).isSome = true ∧
    (tree1.move "/work/reports" "/archive/reports").2 = MoveRes.retFalse ∧
    ((tree1.move "/work/reports" "/archive/reports").1.getNode "/work/reports").isSome = true ∧
    ((tree1.move "/work/reports" "/archive/reports").1.getNode "/archive/reports").isSome = true := by
  decide

/-- C6: the claim states that remove(p, recursive=false) promotes the
children of the removed node onto its parent, detaches the node and returns
true, succeeding in particular on nodes with children. On the scenario tree
the node at "/work" has a child and a resolvable parent, yet the embedded
code throws a TypeError (the promotion loop destructures the TreeNode values
of `children.values()` as `[key, value]` pairs, and a TreeNode is not
iterable) and the tree is left unchanged. -/
theorem remove_nonrecursive_children_throws :
    ((tree1.getNode "/work").map TreeNode.hasChildren) = some true ∧
    (tree1.getNode (parentPathOf "/work")).isSome = true ∧
    (tree1.remove "/work" false).2 = RemoveRes.throwTypeError ∧
    (tree1.remove "/work" false).1 = tree1 :=
  ⟨by decide, by decide, by decide, rfl⟩

/-- C4: the claim states that tick(k, x) auto-creates an empty set at k when
auto-create is enabled and that tickMany applies this behaviour per key. In
the embedded code `tickMany(['work'], 1000, true, true)` on an empty store
returns `[false]` and creates and persists nothing — tickMany passes its
key where tick expects the ids and its ids where tick expects the key, and
tick has no auto-create at all — whereas `tickSync('work', [1000], true,
true)` exhibits exactly the claimed behaviour (auto-creates, adds 1000 and
writes the set through to the store). -/
theorem tickMany_ignores_autocreate :
    BM.tickMany bmEmpty [.str "work"] (.num 1000) true true =
      .ok ([.retFalse], bmEmpty) ∧
    BM.tickSync bmEmpty (.str "work") (.arr [1000]) true true =
      .ok (.bmp 0, ⟨[(.str "work", {1000})], .map [], [{1000}]⟩) := by
  decide

/-- C2: the claim states the dedup law: a hash2oid hit routes insertDocument
to updateDocument with no new record — which the embedding confirms on a
seeded state — and hence inserting twice with one hash leaves exactly one
stored document. But starting from a fresh state both inserts throw inside
the bitmap update (tickMany rejects the empty key array; with keys it
crashes on the string cache) after committing the document write and before
the hash2oid write, so the duplicate is never detected: two document records
with the same content hash end up stored and the hash map stays empty. -/
theorem insertDocument_dedup_broken :
    insertDocument idxSeeded noteDoc2 [] [] = (idxSeeded, .updated) ∧
    (insertDocument idx0 noteDoc1 [] []).2 =
      .threw "TypeError: The first argument to tickMany must be a non-empty array of bitmap keys" ∧
    (insertDocument (insertDocument idx0 noteDoc1 [] []).1 noteDoc2 [] []).1.documents =
      [(1000, ⟨1000, "data/abstr/note", "cafebabe", "payload one"⟩),
       (1001, ⟨1001, "data/abstr/note", "cafebabe", "payload two"⟩)] ∧
    ((insertDocument (insertDocument idx0 noteDoc1 [] []).1 noteDoc2 [] []).1.documents.map
        (fun p => p.2.sha1)) = ["cafebabe", "cafebabe"] ∧
    (insertDocument (insertDocument idx0 noteDoc1 [] []).1 noteDoc2 [] []).1.hash2oid = [] := by
  decide

/-- C10: the claim states that insertDocument records the hash map under the
raw sha1 string and that, consequently, getDocumentByHash(h) resolves every
document stored via insertDocument while getDocumentByHash(h, "sha1") looks
up "sha1/h" and returns null. The key composition is as claimed (visible on
the seeded state), but after an actual insertDocument call the raw-hash
lookup also returns null: the call throws inside the bitmap update before
ever reaching the hash2oid write, so the mapping is never recorded even
though the document record was committed. -/
theorem getDocumentByHash_after_insert :
    (insertDocument idx0 noteDoc1 [] []).1.documents = [(1000, notePDoc1)] ∧
    getDocumentByHash (insertDocument idx0 noteDoc1 [] []).1 "cafebabe" "" = none ∧
    getDocumentByHash (insertDocument idx0 noteDoc1 [] []).1 "cafebabe" "sha1" = none ∧
    getDocumentByHash idxSeeded "cafebabe" "" = some notePDoc1 ∧
    getDocumentByHash idxSeeded "cafebabe" "sha1" = none ∧
    lookupKV idxSeeded.hash2oid ("sha1" ++ "/" ++ "cafebabe") = none := by
  decide

/-- C7 counterexample: the claim states that a getBitmap miss served from
the backing store populates the cache with the loaded set. On a store whose
key "k" is persisted but not cached, getBitmap returns the deserialized set
(freshly allocated at address 0) while the cache of the resulting state is
still empty — no code path of getBitmap or loadBitmapFromDb ever writes the
cache. -/
theorem getBitmap_does_not_populate_cache :
    BM.getBitmap bmDbOnly (.str "k") =
      .ok (some 0, ⟨[(.str "k", {1})], .map [], [{1}]⟩) ∧
    (⟨[(.str "k", {1})], .map [], [{1}]⟩ : BM).cache = .map [] := by
  decide

/-- C7 amended: getBitmap returns the cached object when the key is cached;
otherwise, when the key is persisted, it loads and deserializes the blob
into a fresh object and returns it, leaving the cache (and the store)
unchanged — it does not populate the cache; and when the key was never
created it returns null and changes nothing. -/
theorem getBitmap_spec_amended (st : BM) (m : List (JsVal × Nat)) (k : JsVal)
    (hc : st.cache = .map m) :
    (∀ a, lookupKV m k = some a → BM.getBitmap st k = .ok (some a, st)) ∧
    (∀ blob, lookupKV m k = none → lookupKV st.db k = some blob →
      BM.getBitmap st k = .ok (some st.heap.length, { st with heap := st.heap ++ [blob] }) ∧
      ({ st with heap := st.heap ++ [blob] } : BM).cache = st.cache ∧
      ({ st with heap := st.heap ++ [blob] } : BM).db = st.db) ∧
    (lookupKV m k = none → lookupKV st.db k = none → BM.getBitmap st k = .ok (none, st)) := by
  refine ⟨fun a ha => ?_, fun blob h1 h2 => ⟨?_, rfl, rfl⟩, fun h1 h2 => ?_⟩
  · simp [BM.getBitmap, hc, ha]
  · simp [BM.getBitmap, BM.alloc, hc, h1, h2]
  · simp [BM.getBitmap, hc, h1, h2]

/-- Witness for the amended C7 theorem at the concrete store bmDbOnly. -/
theorem getBitmap_spec_amended_witness :
    (bmDbOnly.cache = .map [] ∧ lookupKV ([] : List (JsVal × Nat)) (.str "k") = none ∧
      lookupKV bmDbOnly.db (.str "k") = some {1}) ∧
    BM.getBitmap bmDbOnly (.str "k") =
      .ok (some bmDbOnly.heap.length, { bmDbOnly with heap := bmDbOnly.heap ++ [{1}] }) :=
  ⟨⟨rfl, by decide, by decide⟩,
    ((getBitmap_spec_amended bmDbOnly [] (.str "k") rfl).2.1 {1} (by decide) (by decide)).1⟩

/-- C8 counterexample: the claim states that hasDocumentSchema(s) is true
exactly when getDocumentSchema(s) is non-null, with the namespace prefix
tolerated by both. At s = "data/abstr/note" hasDocumentSchema returns false
(it looks up the raw name and never strips the prefix) while
getDocumentSchema strips the prefix and resolves the "note" schema. -/
theorem schema_agreement_fails_on_prefixed_name :
    hasDocumentSchema "data/abstr/note" = false ∧
    (getDocumentSchema "data/abstr/note").isSome = true := by
  decide

/-- C8 amended: only getDocumentSchema tolerates (strips) the namespace
prefix; hasDocumentSchema checks the raw name. The two agree exactly on
names without a slash; any name containing a slash fails hasDocumentSchema,
even when getDocumentSchema resolves it (as "data/abstr/note" does). -/
theorem schema_lookup_amended :
    (∀ s : String, includesSlash s = false →
      hasDocumentSchema s = (getDocumentSchema s).isSome) ∧
    (∀ s : String, hasDocumentSchema s = true → includesSlash s = false) ∧
    (getDocumentSchema "data/abstr/note" = some ⟨"data/abstr/note", "2.0"⟩ ∧
      hasDocumentSchema "data/abstr/note" = false) := by
  refine ⟨fun s h => ?_, fun s h => ?_, by decide⟩
  · simp [getDocumentSchema, hasDocumentSchema, h]
  · by_contra hs
    have h2 : ∃ v, lookupKV DOCUMENT_SCHEMAS s = some v := by
      simpa [hasDocumentSchema, Option.isSome_iff_exists] using h
    obtain ⟨v, hv⟩ := h2
    simp only [lookupKV, Option.map_eq_some'] at hv
    obtain ⟨p, hfind, hv2⟩ := hv
    have hmem := List.mem_of_find?_eq_some hfind
    have hpred := List.find?_some hfind
    have hps : p.1 = s := by simpa using hpred
    simp only [DOCUMENT_SCHEMAS, List.mem_cons, List.not_mem_nil, or_false] at hmem
    rcases hmem with h1 | h1 | h1 | h1 <;>
      (rw [← hps, h1] at hs; revert hs; decide)

/-- Witness for the amended C8 theorem at the unprefixed name "note". -/
theorem schema_lookup_amended_witness :
    includesSlash "note" = false ∧
    hasDocumentSchema "note" = (getDocumentSchema "note").isSome :=
  ⟨by decide, schema_lookup_amended.1 "note" (by decide)⟩

end Canvas
